import Mathlib

/-!
Verification of the `arbscanner` subtree of the polygon repository.

Rust strings are modelled as `List Char` (the symbols and venue ids handled by
the program are ASCII, so character-wise case mapping agrees with Rust's
`to_uppercase`/`to_lowercase`).  The `rust_decimal::Decimal` price type is
modelled as the exact rationals `ℚ`; the crate's 96-bit mantissa bound and its
rounding of division results beyond 28 significant digits are outside the
model.  `DashMap`/`HashMap` maps are modelled as association lists whose
`insert` overwrites the first entry with the matching key, which reproduces the
observable lookup/overwrite/iteration behaviour of a hash map for the states
the program constructs.
-/

namespace Arb

/-- Models Rust `str::to_uppercase` (character-wise, ASCII range: all symbols
and venue ids handled by the program are ASCII). -/
def toUpperStr (s : List Char) : List Char := s.map Char.toUpper

/-- Models Rust `str::to_lowercase` (character-wise, ASCII range). -/
def toLowerStr (s : List Char) : List Char := s.map Char.toLower

/-- Does `s` start with `pat`?  Models Rust `str::starts_with`. -/
def strStarts : List Char → List Char → Bool
  | [], _ => true
  | _ :: _, [] => false
  | p :: pt, c :: ct => p == c && strStarts pt ct

/-- Does `s` end with `pat`?  Models Rust `str::ends_with`. -/
def strEnds (pat s : List Char) : Bool := strStarts pat.reverse s.reverse

/-- Does `s` contain `pat` as a contiguous substring?  Models Rust
`str::contains` with a string pattern. -/
def strContains (s pat : List Char) : Bool :=
  match s with
  | [] => pat.isEmpty
  | _ :: t => strStarts pat s || strContains t pat

/-- Models Rust `str::replace` with a one-character pattern and a
one-character replacement. -/
def replaceChar (a b : Char) (s : List Char) : List Char :=
  s.map fun c => if c = a then b else c

/-- Models Rust `str::split(sep)`: splitting the empty string yields one empty
piece, like Rust's splitter. -/
def splitOnChar (sep : Char) : List Char → List (List Char)
  | [] => [[]]
  | c :: t =>
    if c = sep then [] :: splitOnChar sep t
    else
      match splitOnChar sep t with
      | [] => [[c]]
      | h :: r => (c :: h) :: r

/-- Models Rust `str::trim` (ASCII whitespace). -/
def trimStr (s : List Char) : List Char :=
  ((s.dropWhile Char.isWhitespace).reverse.dropWhile Char.isWhitespace).reverse

/-- Numeric value of a digit string. -/
def digitsVal (l : List Char) : Nat :=
  l.foldl (fun n c => 10 * n + (c.toNat - 48)) 0

/-- Models `rust_decimal::Decimal::from_str`, restricted to plain
sign/digits/point numerals (`-12`, `0.8`, `+3.5`); the crate's underscore
separators and 96-bit overflow behaviour are outside the model.  The parsed
value is exact. -/
def parseDecimal (s : List Char) : Option ℚ :=
  let (sign, rest) : ℚ × List Char :=
    match s with
    | '+' :: t => (1, t)
    | '-' :: t => (-1, t)
    | _ => (1, s)
  match splitOnChar '.' rest with
  | [intPart] =>
    if intPart ≠ [] ∧ intPart.all Char.isDigit then
      some (sign * (digitsVal intPart : ℚ))
    else none
  | [intPart, fracPart] =>
    if intPart ≠ [] ∧ fracPart ≠ [] ∧ intPart.all Char.isDigit ∧ fracPart.all Char.isDigit then
      some (sign * ((digitsVal intPart : ℚ) + (digitsVal fracPart : ℚ) / (10 : ℚ) ^ fracPart.length))
    else none
  | _ => none

/-- Models `u64::from_str` (optional `+`, digits, 64-bit bound). -/
def parseU64 (s : List Char) : Option Nat :=
  let core : List Char → Option Nat := fun t =>
    if t ≠ [] ∧ t.all Char.isDigit ∧ digitsVal t < 2 ^ 64 then some (digitsVal t) else none
  match s with
  | '+' :: t => core t
  | _ => core s

/-- Models `usize::from_str` on a 64-bit target. -/
def parseUsize (s : List Char) : Option Nat := parseU64 s

/-- Models `i64::from_str` (optional sign, digits, 64-bit signed bounds). -/
def parseI64 (s : List Char) : Option Int :=
  let core : List Char → Option Nat := fun t =>
    if t ≠ [] ∧ t.all Char.isDigit then some (digitsVal t) else none
  match s with
  | '+' :: t => (core t).bind fun n => if n < 2 ^ 63 then some (n : Int) else none
  | '-' :: t => (core t).bind fun n => if n ≤ 2 ^ 63 then some (-(n : Int)) else none
  | _ => (core s).bind fun n => if n < 2 ^ 63 then some (n : Int) else none

/-- Lookup in an association list; models `HashMap::get` / `DashMap::get`. -/
def lookupA {β : Type} (l : List (List Char × β)) (k : List Char) : Option β :=
  match l with
  | [] => none
  | (k', v) :: t => if k' = k then some v else lookupA t k

/-- Insert into an association list, overwriting the entry with the matching
key in place (appending when absent); models `HashMap::insert` /
`DashMap::insert`. -/
def insertA {β : Type} (l : List (List Char × β)) (k : List Char) (v : β) :
    List (List Char × β) :=
  match l with
  | [] => [(k, v)]
  | (k', v') :: t => if k' = k then (k, v) :: t else (k', v') :: insertA t k v

/-- Known quote currencies in priority order, from `TickerMatcher::new`. -/
def quote_currencies : List (List Char) :=
  ["USDT".toList, "USDC".toList, "USD".toList, "BUSD".toList, "TUSD".toList,
   "USDP".toList, "DAI".toList, "FDUSD".toList,
   "EUR".toList, "GBP".toList, "JPY".toList, "AUD".toList, "CAD".toList,
   "BTC".toList, "ETH".toList, "BNB".toList, "SOL".toList, "XRP".toList]

/-- The `for quote in &self.quote_currencies` loop of
`TickerMatcher::normalize_symbol`: return `base ++ "/" ++ quote` for the first
quote that is a suffix of `r` with a non-empty base, else fall through. -/
def splitByQuote (r : List Char) : List (List Char) → Option (List Char)
  | [] => none
  | q :: rest =>
    if strEnds q r then
      let base := r.take (r.length - q.length)
      if base.isEmpty then splitByQuote r rest
      else some (base ++ '/' :: q)
    else splitByQuote r rest

/-- Embeds `TickerMatcher::normalize_symbol` (matcher.rs lines 80-110). -/
def normalize_symbol (raw : List Char) : List Char :=
  let r := toUpperStr raw
  if r.contains '/' then r
  else if r.contains '-' then replaceChar '-' '/' r
  else if r.contains '_' then replaceChar '_' '/' r
  else
    match splitByQuote r quote_currencies with
    | some res => res
    | none => r ++ "/USD".toList

/-- Written from the spec's words (§4.1 of the spec, quoted in claim C3):
uppercase; accept if it contains `/`; else replace `-`, else `_`, with `/`;
else split at the first quote-currency suffix in priority order whose base is
non-empty; else append `/USD`. -/
def normalizeSpec (raw : List Char) : List Char :=
  let r := toUpperStr raw
  if r.contains '/' then r
  else if r.contains '-' then replaceChar '-' '/' r
  else if r.contains '_' then replaceChar '_' '/' r
  else
    match quote_currencies.find?
        (fun q => strEnds q r && !(r.take (r.length - q.length)).isEmpty) with
    | some q => r.take (r.length - q.length) ++ '/' :: q
    | none => r ++ "/USD".toList

/-- State of `TickerMatcher` (matcher.rs): the two `DashMap`-of-`HashMap`
indices, modelled as nested association lists. -/
structure TickerMatcher where
  to_normalized : List (List Char × List (List Char × List Char))
  to_exchange : List (List Char × List (List Char × List Char))
deriving DecidableEq

/-- The matcher with empty indices, from `TickerMatcher::new`. -/
def TickerMatcher.new : TickerMatcher := ⟨[], []⟩

/-- Embeds `TickerMatcher::register` (matcher.rs lines 37-53); returns the
normalized symbol together with the updated matcher state. -/
def register (m : TickerMatcher) (exchange raw : List Char) :
    List Char × TickerMatcher :=
  let normalized := normalize_symbol raw
  let row1 := (lookupA m.to_normalized exchange).getD []
  let row2 := (lookupA m.to_exchange normalized).getD []
  (normalized,
   { to_normalized := insertA m.to_normalized exchange (insertA row1 raw normalized),
     to_exchange := insertA m.to_exchange normalized (insertA row2 exchange raw) })

/-- Embeds `TickerMatcher::get_normalized` (matcher.rs lines 56-60). -/
def get_normalized (m : TickerMatcher) (exchange raw : List Char) :
    Option (List Char) :=
  (lookupA m.to_normalized exchange).bind fun row => lookupA row raw

/-- Keys of an association list are pairwise distinct — every `HashMap` /
`DashMap` state satisfies this. -/
def KeysNodup {β : Type} (l : List (List Char × β)) : Prop :=
  (l.map Prod.fst).Nodup

/-- Well-formedness of a matcher state: both indices and all their inner rows
have pairwise-distinct keys, as every hash-map state does. -/
def MatcherWF (m : TickerMatcher) : Prop :=
  KeysNodup m.to_normalized ∧ (∀ p ∈ m.to_normalized, KeysNodup p.2) ∧
  KeysNodup m.to_exchange ∧ (∀ p ∈ m.to_exchange, KeysNodup p.2)

/-- Number of entries held for key `k` in an association list. -/
def countKey {β : Type} (l : List (List Char × β)) (k : List Char) : Nat :=
  (l.filter fun p => p.1 = k).length

/-- Typed configuration (config.rs lines 5-30). -/
structure Config where
  min_spread_percent : ℚ
  max_spread_percent : ℚ
  cooldown_ms : Nat
  callback_url : List Char
  filter_pairs : List (List Char)
  filter_exchanges : List (List Char)
  enabled_exchanges : List (List Char)
  orderbook_depth : Nat
deriving DecidableEq

/-- The process environment seen by `Config::from_env`: each variable is
either set to a string or absent. -/
structure Env where
  min_spread_percent : Option (List Char)
  max_spread_percent : Option (List Char)
  cooldown_ms : Option (List Char)
  callback_url : Option (List Char)
  filter_pairs : Option (List Char)
  filter_exchanges : Option (List Char)
  enabled_exchanges : Option (List Char)
  orderbook_depth : Option (List Char)
deriving DecidableEq

/-- Comma-split, trim, recase, drop empties — the list-variable treatment in
`Config::from_env`. -/
def splitListVar (recase : List Char → List Char) (s : List Char) :
    List (List Char) :=
  ((splitOnChar ',' s).map fun piece => recase (trimStr piece)).filter
    fun piece => ¬piece.isEmpty

/-- Embeds `Config::from_env` (config.rs lines 33-83).  Reading the
environment is the only effect of the source function; it is passed here as a
value.  Parse failures of the three checked numeric variables surface as
`Except.error` with the `context` message; `ORDERBOOK_DEPTH` falls back to 5
on a parse failure (`unwrap_or(5)`). -/
def from_env (env : Env) : Except (List Char) Config :=
  let min_spread := env.min_spread_percent.getD "0.8".toList
  let max_spread := env.max_spread_percent.getD "10.0".toList
  let cooldown := env.cooldown_ms.getD "1000".toList
  let callback_url :=
    env.callback_url.getD "http://192.168.1.223:82/api/datastudio/trigger".toList
  let filter_pairs := splitListVar toUpperStr (env.filter_pairs.getD [])
  let filter_exchanges := splitListVar toLowerStr (env.filter_exchanges.getD [])
  let enabled_exchanges :=
    splitListVar toLowerStr
      (env.enabled_exchanges.getD
        "binance,bybit,okx,kraken,kucoin,gate,mexc,htx,bitget,coinbase".toList)
  let orderbook_depth := (parseUsize (env.orderbook_depth.getD "5".toList)).getD 5
  match parseDecimal min_spread with
  | none => .error "Invalid MIN_SPREAD_PERCENT".toList
  | some minv =>
    match parseDecimal max_spread with
    | none => .error "Invalid MAX_SPREAD_PERCENT".toList
    | some maxv =>
      match parseU64 cooldown with
      | none => .error "Invalid COOLDOWN_MS".toList
      | some cd =>
        .ok { min_spread_percent := minv, max_spread_percent := maxv,
              cooldown_ms := cd, callback_url := callback_url,
              filter_pairs := filter_pairs, filter_exchanges := filter_exchanges,
              enabled_exchanges := enabled_exchanges,
              orderbook_depth := orderbook_depth }

/-- The bus event (exchanges/mod.rs `PriceUpdate`). -/
structure PriceUpdate where
  exchange : List Char
  symbol : List Char
  raw_symbol : List Char
  bid : ℚ
  ask : ℚ
  bid_size : ℚ
  ask_size : ℚ
  timestamp : Int
deriving DecidableEq

/-- Derived record (scanner.rs lines 14-24). -/
structure ArbitrageOpportunity where
  symbol : List Char
  buy_exchange : List Char
  sell_exchange : List Char
  buy_price : ℚ
  sell_price : ℚ
  spread_percent : ℚ
  spread_usd : ℚ
  timestamp : Int
deriving DecidableEq

/-- The scanner-owned state: price table and cooldown table
(scanner.rs lines 33-37). -/
structure ScannerState where
  prices : List (List Char × List (List Char × PriceUpdate))
  last_alert : List (List Char × Int)
deriving DecidableEq

/-- Initial scanner state (`ArbitrageScanner::new`). -/
def ScannerState.init : ScannerState := ⟨[], []⟩

/-- The base-asset pair filter of `find_arbitrage` (scanner.rs lines 177-183):
when `filter_pairs` is non-empty, the characters of the symbol before the
first `/` must contain or be contained in some filter entry. -/
def pairFilterOk (cfg : Config) (symbol : List Char) : Bool :=
  if cfg.filter_pairs.isEmpty then true
  else
    let base := symbol.takeWhile fun c => c ≠ '/'
    cfg.filter_pairs.any fun p => strContains base p || strContains p base

/-- The best-bid/best-ask scan over one price row (scanner.rs lines 127-150):
skip venues excluded by `filter_exchanges`; keep the strictly highest bid and
the strictly lowest ask, first-seen winning ties. -/
def bestLoop (cfg : Config) :
    List (List Char × PriceUpdate) → Option (List Char × ℚ) →
    Option (List Char × ℚ) → Option (List Char × ℚ) × Option (List Char × ℚ)
  | [], best_bid, best_ask => (best_bid, best_ask)
  | (exchange, u) :: rest, best_bid, best_ask =>
    if ¬cfg.filter_exchanges.isEmpty ∧
        ¬cfg.filter_exchanges.contains (toLowerStr exchange) then
      bestLoop cfg rest best_bid best_ask
    else
      let bb :=
        match best_bid with
        | none => some (exchange, u.bid)
        | some (e, b) => if u.bid > b then some (exchange, u.bid) else some (e, b)
      let ba :=
        match best_ask with
        | none => some (exchange, u.ask)
        | some (e, a) => if u.ask < a then some (exchange, u.ask) else some (e, a)
      bestLoop cfg rest bb ba

/-- Embeds `ArbitrageScanner::find_arbitrage` (scanner.rs lines 119-195).
`now` stands for the `chrono::Utc::now()` call that stamps the opportunity. -/
def find_arbitrage (cfg : Config)
    (prices : List (List Char × List (List Char × PriceUpdate)))
    (now : Int) (symbol : List Char) : Option ArbitrageOpportunity :=
  match lookupA prices symbol with
  | none => none
  | some row =>
    if row.length < 2 then none
    else
      match bestLoop cfg row none none with
      | (some (sell_exchange, sell_price), some (buy_exchange, buy_price)) =>
        if sell_exchange = buy_exchange then none
        else if buy_price = 0 then none
        else
          let spread_usd := sell_price - buy_price
          let spread_percent := spread_usd / buy_price * 100
          if spread_percent < cfg.min_spread_percent then none
          else if spread_percent > cfg.max_spread_percent then none
          else if ¬pairFilterOk cfg symbol then none
          else
            some { symbol := symbol, buy_exchange := buy_exchange,
                   sell_exchange := sell_exchange, buy_price := buy_price,
                   sell_price := sell_price, spread_percent := spread_percent,
                   spread_usd := spread_usd, timestamp := now }
      | _ => none

/-- The cooldown key `format!("{}-{}-{}", symbol, buy, sell)` of
`handle_price_update`. -/
def oppKey (o : ArbitrageOpportunity) : List Char :=
  o.symbol ++ '-' :: (o.buy_exchange ++ '-' :: o.sell_exchange)

/-- Models Rust's `u64 as i64` cast: reduce modulo `2^64` and reinterpret in
two's complement, so values of `2^63` and above come out negative. -/
def u64AsI64 (n : Nat) : Int :=
  if n % 2 ^ 64 < 2 ^ 63 then ((n % 2 ^ 64 : Nat) : Int)
  else ((n % 2 ^ 64 : Nat) : Int) - 2 ^ 64

/-- Embeds `ArbitrageScanner::handle_price_update` (scanner.rs lines 84-117).
`now` stands for the wall clock read; the returned option is the opportunity
handed to the notifier, if any.  The cooldown comparison is against
`self.config.cooldown_ms as i64`, a wrapping cast. -/
def handle_price_update (cfg : Config) (st : ScannerState) (now : Int)
    (update : PriceUpdate) : ScannerState × Option ArbitrageOpportunity :=
  let row := (lookupA st.prices update.symbol).getD []
  let prices' := insertA st.prices update.symbol (insertA row update.exchange update)
  match find_arbitrage cfg prices' now update.symbol with
  | none => (⟨prices', st.last_alert⟩, none)
  | some opportunity =>
    let key := oppKey opportunity
    let last := (lookupA st.last_alert key).getD 0
    if now - last ≥ u64AsI64 cfg.cooldown_ms then
      (⟨prices', insertA st.last_alert key now⟩, some opportunity)
    else
      (⟨prices', st.last_alert⟩, none)

/-- Run the scanner over a timed sequence of bus events, collecting the
notified opportunities with their wall-clock emit times. -/
def scanLoop (cfg : Config) :
    List (Int × PriceUpdate) → ScannerState →
    ScannerState × List (Int × ArbitrageOpportunity)
  | [], st => (st, [])
  | (now, u) :: rest, st =>
    let step := handle_price_update cfg st now u
    let tail := scanLoop cfg rest step.1
    (tail.1,
     (match step.2 with
      | some opportunity => [(now, opportunity)]
      | none => []) ++ tail.2)

/-- Process a trace from the initial scanner state. -/
def scanTrace (cfg : Config) (evs : List (Int × PriceUpdate)) :
    ScannerState × List (Int × ArbitrageOpportunity) :=
  scanLoop cfg evs ScannerState.init

/-- Read one cell of the two-level price table. -/
def lookupCell (prices : List (List Char × List (List Char × PriceUpdate)))
    (symbol exchange : List Char) : Option PriceUpdate :=
  (lookupA prices symbol).bind fun row => lookupA row exchange

/-- A concrete `BTC/USDT` top-of-book update for the seed scenarios. -/
def mkUpd (e : String) (b a : ℚ) : PriceUpdate :=
  { exchange := e.toList, symbol := "BTC/USDT".toList, raw_symbol := "BTCUSDT".toList,
    bid := b, ask := a, bid_size := 0, ask_size := 0, timestamp := 0 }

/-- The seed-scenario configuration: `min_spread_percent = 0.3`, defaults
elsewhere, no filters. -/
def cfg4 : Config :=
  { min_spread_percent := 3/10, max_spread_percent := 10, cooldown_ms := 1000,
    callback_url := [], filter_pairs := [], filter_exchanges := [],
    enabled_exchanges := [], orderbook_depth := 5 }

/-- Seed scenario 2: the cross-venue spread trace, with both updates re-fed
within one second of the emit. -/
def evs4 : List (Int × PriceUpdate) :=
  [(2000, mkUpd "binance" 60000 60010), (2000, mkUpd "okx" 60250 60260),
   (2500, mkUpd "binance" 60000 60010), (2900, mkUpd "okx" 60250 60260)]

/-- The one opportunity the scanner emits on `evs4`. -/
def opp4 : ArbitrageOpportunity :=
  { symbol := "BTC/USDT".toList, buy_exchange := "binance".toList,
    sell_exchange := "okx".toList, buy_price := 60010, sell_price := 60250,
    spread_percent := 2400/6001, spread_usd := 240, timestamp := 2000 }

/-- The seed configuration with `cooldown_ms = 2^63`: a value `u64::from_str`
accepts and whose `as i64` cast wraps to a negative number. -/
def cfgWrap : Config :=
  { cfg4 with cooldown_ms := 2 ^ 63 }

/-- The `evs4` opportunity as emitted at wall-clock time `t`. -/
def oppAt (t : Int) : ArbitrageOpportunity :=
  { opp4 with timestamp := t }

/-- A configuration with `min_spread_percent = 0`, otherwise permissive. -/
def cfgMin0 : Config :=
  { min_spread_percent := 0, max_spread_percent := 10, cooldown_ms := 1000,
    callback_url := [], filter_pairs := [], filter_exchanges := [],
    enabled_exchanges := [], orderbook_depth := 5 }

/-- A trace where okx's best bid exactly equals binance's best ask. -/
def evsMin0 : List (Int × PriceUpdate) :=
  [(2000, mkUpd "binance" 90 100), (5000, mkUpd "okx" 100 101)]

/-- The opportunity emitted on `evsMin0` under `cfgMin0`: its sell price
equals its buy price. -/
def oppMin0 : ArbitrageOpportunity :=
  { symbol := "BTC/USDT".toList, buy_exchange := "binance".toList,
    sell_exchange := "okx".toList, buy_price := 100, sell_price := 100,
    spread_percent := 0, spread_usd := 0, timestamp := 5000 }

/-- A permissive configuration whose pair filter holds the single entry
`BTC`. -/
def cfgBTC : Config :=
  { cfgMin0 with filter_pairs := ["BTC".toList] }

/-- The emits of a trace restricted to one opportunity triple
`(symbol, buy_exchange, sell_exchange)`. -/
def tripleEmits (s b se : List Char) (emits : List (Int × ArbitrageOpportunity)) :
    List (Int × ArbitrageOpportunity) :=
  emits.filter fun p =>
    p.2.symbol = s ∧ p.2.buy_exchange = b ∧ p.2.sell_exchange = se

/-- The emits of a trace restricted to one cooldown-table key. -/
def keyEmits (k : List Char) (emits : List (Int × ArbitrageOpportunity)) :
    List (Int × ArbitrageOpportunity) :=
  emits.filter fun p => oppKey p.2 = k

/-- An environment with only `ORDERBOOK_DEPTH` set, to a non-numeric string. -/
def envDepthBad : Env :=
  { min_spread_percent := none, max_spread_percent := none, cooldown_ms := none,
    callback_url := none, filter_pairs := none, filter_exchanges := none,
    enabled_exchanges := none, orderbook_depth := some "abc".toList }

/-- The configuration `Config::from_env` builds from `envDepthBad`: all
defaults, with `orderbook_depth` silently falling back to 5. -/
def cfgDepthBad : Config :=
  { min_spread_percent := 4/5, max_spread_percent := 10, cooldown_ms := 1000,
    callback_url := "http://192.168.1.223:82/api/datastudio/trigger".toList,
    filter_pairs := [], filter_exchanges := [],
    enabled_exchanges :=
      ["binance".toList, "bybit".toList, "okx".toList, "kraken".toList,
       "kucoin".toList, "gate".toList, "mexc".toList, "htx".toList,
       "bitget".toList, "coinbase".toList],
    orderbook_depth := 5 }

/-- Binance `BookTickerEvent` (binance.rs lines 31-43). -/
structure BinanceEvent where
  symbol : List Char
  bid_price : List Char
  bid_qty : List Char
  ask_price : List Char
  ask_qty : List Char
deriving DecidableEq

/-- The decode-to-publish conversion of the Binance read loop (binance.rs
lines 113-137): parse bid/ask (unparseable defaults to zero), drop on a zero
side, register the raw symbol, publish.  `none` means the ticker is dropped;
`now` stands for the wall-clock timestamp. -/
def binanceDecode (ev : BinanceEvent) (now : Int) : Option PriceUpdate :=
  let bid := (parseDecimal ev.bid_price).getD 0
  let ask := (parseDecimal ev.ask_price).getD 0
  if bid = 0 ∨ ask = 0 then none
  else
    some { exchange := "binance".toList, symbol := normalize_symbol ev.symbol,
           raw_symbol := ev.symbol, bid := bid, ask := ask,
           bid_size := (parseDecimal ev.bid_qty).getD 0,
           ask_size := (parseDecimal ev.ask_qty).getD 0, timestamp := now }

/-- Bybit `TickerData` (bybit.rs lines 48-58). -/
structure BybitTicker where
  symbol : List Char
  bid_price : List Char
  bid_size : List Char
  ask_price : List Char
  ask_size : List Char
deriving DecidableEq

/-- Decode-to-publish conversion of the Bybit read loop (bybit.rs
lines 135-155). -/
def bybitDecode (ev : BybitTicker) (now : Int) : Option PriceUpdate :=
  let bid := (parseDecimal ev.bid_price).getD 0
  let ask := (parseDecimal ev.ask_price).getD 0
  if bid = 0 ∨ ask = 0 then none
  else
    some { exchange := "bybit".toList, symbol := normalize_symbol ev.symbol,
           raw_symbol := ev.symbol, bid := bid, ask := ask,
           bid_size := (parseDecimal ev.bid_size).getD 0,
           ask_size := (parseDecimal ev.ask_size).getD 0, timestamp := now }

/-- OKX `TickerData` (okx.rs lines 59-70). -/
structure OkxTicker where
  inst_id : List Char
  bid_price : List Char
  bid_size : List Char
  ask_price : List Char
  ask_size : List Char
deriving DecidableEq

/-- Decode-to-publish conversion of the OKX read loop (okx.rs
lines 147-167). -/
def okxDecode (ev : OkxTicker) (now : Int) : Option PriceUpdate :=
  let bid := (parseDecimal ev.bid_price).getD 0
  let ask := (parseDecimal ev.ask_price).getD 0
  if bid = 0 ∨ ask = 0 then none
  else
    some { exchange := "okx".toList, symbol := normalize_symbol ev.inst_id,
           raw_symbol := ev.inst_id, bid := bid, ask := ask,
           bid_size := (parseDecimal ev.bid_size).getD 0,
           ask_size := (parseDecimal ev.ask_size).getD 0, timestamp := now }

/-- Gate `TickerResult` (gate.rs). -/
structure GateTicker where
  currency_pair : List Char
  highest_bid : List Char
  lowest_ask : List Char
deriving DecidableEq

/-- Decode-to-publish conversion of the Gate.io read loop (gate.rs
lines 121-141); Gate sends no sizes, so both are zero. -/
def gateDecode (ev : GateTicker) (now : Int) : Option PriceUpdate :=
  let bid := (parseDecimal ev.highest_bid).getD 0
  let ask := (parseDecimal ev.lowest_ask).getD 0
  if bid = 0 ∨ ask = 0 then none
  else
    some { exchange := "gate".toList, symbol := normalize_symbol ev.currency_pair,
           raw_symbol := ev.currency_pair, bid := bid, ask := ask,
           bid_size := 0, ask_size := 0, timestamp := now }

/-- Kraken `TickerData` (kraken.rs lines 45-51): serde decodes the numeric
fields straight to `Decimal`. -/
structure KrakenTicker where
  symbol : List Char
  bid : ℚ
  bid_qty : ℚ
  ask : ℚ
  ask_qty : ℚ
deriving DecidableEq

/-- Decode-to-publish conversion of the Kraken read loop (kraken.rs
lines 115-134). -/
def krakenDecode (ev : KrakenTicker) (now : Int) : Option PriceUpdate :=
  if ev.bid = 0 ∨ ev.ask = 0 then none
  else
    some { exchange := "kraken".toList, symbol := normalize_symbol ev.symbol,
           raw_symbol := ev.symbol, bid := ev.bid, ask := ev.ask,
           bid_size := ev.bid_qty, ask_size := ev.ask_qty, timestamp := now }

/-- KuCoin `TickerData` (kucoin.rs lines 74-83) together with the message
topic the raw symbol is extracted from. -/
structure KucoinTicker where
  topic : List Char
  best_bid : List Char
  best_bid_size : List Char
  best_ask : List Char
  best_ask_size : List Char
deriving DecidableEq

/-- Decode-to-publish conversion of the KuCoin read loop (kucoin.rs
lines 165-191): the raw symbol is the piece of the topic after the last
`:`. -/
def kucoinDecode (ev : KucoinTicker) (now : Int) : Option PriceUpdate :=
  let symbol := (splitOnChar ':' ev.topic).getLastD []
  let bid := (parseDecimal ev.best_bid).getD 0
  let ask := (parseDecimal ev.best_ask).getD 0
  if bid = 0 ∨ ask = 0 then none
  else
    some { exchange := "kucoin".toList, symbol := normalize_symbol symbol,
           raw_symbol := symbol, bid := bid, ask := ask,
           bid_size := (parseDecimal ev.best_bid_size).getD 0,
           ask_size := (parseDecimal ev.best_ask_size).getD 0, timestamp := now }

/-- MEXC `TickerData` (mexc.rs) with the channel string the raw symbol is
extracted from. -/
structure MexcTicker where
  channel : List Char
  bid_price : Option (List Char)
  bid_qty : Option (List Char)
  ask_price : Option (List Char)
  ask_qty : Option (List Char)
deriving DecidableEq

/-- Decode-to-publish conversion of the MEXC read loop (mexc.rs
lines 128-167): the raw symbol is the piece of the channel after the last
`@`; MEXC looks up `get_normalized` and drops unknown symbols. -/
def mexcDecode (m : TickerMatcher) (ev : MexcTicker) (now : Int) :
    Option PriceUpdate :=
  let symbol := (splitOnChar '@' ev.channel).getLastD []
  let bid := ((ev.bid_price.bind parseDecimal).getD 0 : ℚ)
  let ask := ((ev.ask_price.bind parseDecimal).getD 0 : ℚ)
  if bid = 0 ∨ ask = 0 then none
  else
    match get_normalized m "mexc".toList symbol with
    | none => none
    | some normalized =>
      some { exchange := "mexc".toList, symbol := normalized,
             raw_symbol := symbol, bid := bid, ask := ask,
             bid_size := (ev.bid_qty.bind parseDecimal).getD 0,
             ask_size := (ev.ask_qty.bind parseDecimal).getD 0, timestamp := now }

/-- HTX `TickerData` (htx.rs) with the channel string the raw symbol is
extracted from; serde decodes the numeric fields straight to `Decimal`. -/
structure HtxTicker where
  channel : List Char
  bid : Option ℚ
  bid_size : Option ℚ
  ask : Option ℚ
  ask_size : Option ℚ
deriving DecidableEq

/-- Decode-to-publish conversion of the HTX read loop (htx.rs lines 140-168):
the channel `market.<sym>.bbo` must have at least two dot-separated parts; the
raw symbol is the uppercased second part; HTX looks up `get_normalized`. -/
def htxDecode (m : TickerMatcher) (ev : HtxTicker) (now : Int) :
    Option PriceUpdate :=
  let parts := splitOnChar '.' ev.channel
  if parts.length < 2 then none
  else
    let symbol := toUpperStr (parts.getD 1 [])
    let bid := (ev.bid.getD 0 : ℚ)
    let ask := (ev.ask.getD 0 : ℚ)
    if bid = 0 ∨ ask = 0 then none
    else
      match get_normalized m "htx".toList symbol with
      | none => none
      | some normalized =>
        some { exchange := "htx".toList, symbol := normalized,
               raw_symbol := symbol, bid := bid, ask := ask,
               bid_size := ev.bid_size.getD 0, ask_size := ev.ask_size.getD 0,
               timestamp := now }

/-- Bitget `TickerData` (bitget.rs lines 66-78). -/
structure BitgetTicker where
  inst_id : List Char
  best_bid : List Char
  best_ask : List Char
  bid_sz : List Char
  ask_sz : List Char
  ts : List Char
deriving DecidableEq

/-- Decode-to-publish conversion of the Bitget read loop (bitget.rs
lines 168-187): Bitget looks up `get_normalized` and uses the venue timestamp
(unparseable defaults to zero). -/
def bitgetDecode (m : TickerMatcher) (ev : BitgetTicker) : Option PriceUpdate :=
  let bid := (parseDecimal ev.best_bid).getD 0
  let ask := (parseDecimal ev.best_ask).getD 0
  if bid = 0 ∨ ask = 0 then none
  else
    match get_normalized m "bitget".toList ev.inst_id with
    | none => none
    | some normalized =>
      some { exchange := "bitget".toList, symbol := normalized,
             raw_symbol := ev.inst_id, bid := bid, ask := ask,
             bid_size := (parseDecimal ev.bid_sz).getD 0,
             ask_size := (parseDecimal ev.ask_sz).getD 0,
             timestamp := (parseI64 ev.ts).getD 0 }

/-- Coinbase `TickerData` (coinbase.rs lines 53-60). -/
structure CoinbaseTicker where
  product_id : List Char
  best_bid : Option (List Char)
  best_ask : Option (List Char)
  best_bid_quantity : Option (List Char)
  best_ask_quantity : Option (List Char)
deriving DecidableEq

/-- Decode-to-publish conversion of the Coinbase read loop (coinbase.rs
lines 136-170): absent or unparseable sides default to zero and are then
dropped; Coinbase looks up `get_normalized`. -/
def coinbaseDecode (m : TickerMatcher) (ev : CoinbaseTicker) (now : Int) :
    Option PriceUpdate :=
  let bid := ((ev.best_bid.bind parseDecimal).getD 0 : ℚ)
  let ask := ((ev.best_ask.bind parseDecimal).getD 0 : ℚ)
  if bid = 0 ∨ ask = 0 then none
  else
    match get_normalized m "coinbase".toList ev.product_id with
    | none => none
    | some normalized =>
      some { exchange := "coinbase".toList, symbol := normalized,
             raw_symbol := ev.product_id, bid := bid, ask := ask,
             bid_size := (ev.best_bid_quantity.bind parseDecimal).getD 0,
             ask_size := (ev.best_ask_quantity.bind parseDecimal).getD 0,
             timestamp := now }

/-- The guarantees every opportunity passed to the notifier carries, read off
the guard structure of `find_arbitrage`. -/
def EmitOk (cfg : Config) (t : Int) (o : ArbitrageOpportunity) : Prop :=
  o.buy_exchange ≠ o.sell_exchange ∧
  cfg.min_spread_percent ≤ o.spread_percent ∧
  o.spread_percent ≤ cfg.max_spread_percent ∧
  o.spread_usd = o.sell_price - o.buy_price ∧
  o.spread_percent = (o.sell_price - o.buy_price) / o.buy_price * 100 ∧
  o.buy_price ≠ 0 ∧
  o.timestamp = t ∧
  pairFilterOk cfg o.symbol = true

/-- Both published sides are non-zero. -/
def NonzeroSides (u : PriceUpdate) : Prop := u.bid ≠ 0 ∧ u.ask ≠ 0

/-- A Binance book-ticker event carrying a negative bid price. -/
def evNegBid : BinanceEvent :=
  { symbol := "BTCUSDT".toList, bid_price := "-1".toList, bid_qty := "1".toList,
    ask_price := "1".toList, ask_qty := "1".toList }

/-- The update the Binance decode path publishes for `evNegBid`. -/
def updNegBid : PriceUpdate :=
  { exchange := "binance".toList, symbol := "BTC/USDT".toList,
    raw_symbol := "BTCUSDT".toList, bid := -1, ask := 1, bid_size := 1,
    ask_size := 1, timestamp := 0 }

/-- A Kraken ticker whose bid side is zero. -/
def evKrakenZero : KrakenTicker :=
  { symbol := "BTC/USD".toList, bid := 0, bid_qty := 1, ask := 2, ask_qty := 1 }

theorem toNat_ofNat_valid (n : Nat) (h : n.isValidChar) : (Char.ofNat n).toNat = n := by
  rw [Char.ofNat, dif_pos h]
  rfl

theorem toUpper_eq_of_lower (c : Char) (h : 97 ≤ c.toNat ∧ c.toNat ≤ 122) :
    c.toUpper = Char.ofNat (c.toNat - 32) := by
  unfold Char.toUpper
  rw [if_pos ⟨h.1, h.2⟩]

theorem toUpper_eq_of_not_lower (c : Char) (h : ¬(97 ≤ c.toNat ∧ c.toNat ≤ 122)) :
    c.toUpper = c := by
  unfold Char.toUpper
  rw [if_neg h]

theorem toUpper_idem (c : Char) : c.toUpper.toUpper = c.toUpper := by
  by_cases h : 97 ≤ c.toNat ∧ c.toNat ≤ 122
  · rw [toUpper_eq_of_lower c h]
    have hv : (c.toNat - 32).isValidChar := Or.inl (by omega)
    refine toUpper_eq_of_not_lower _ ?_
    rw [toNat_ofNat_valid _ hv]
    omega
  · rw [toUpper_eq_of_not_lower c h, toUpper_eq_of_not_lower c h]

theorem map_fix {f : Char → Char} : ∀ {s : List Char}, (∀ c ∈ s, f c = c) → s.map f = s
  | [], _ => rfl
  | c :: t, h => by
    rw [List.map_cons, h c (List.mem_cons_self _ _),
      map_fix fun d hd => h d (List.mem_cons_of_mem _ hd)]

theorem toUpperStr_fix {raw : List Char} {c : Char} (h : c ∈ toUpperStr raw) :
    c.toUpper = c := by
  obtain ⟨d, _, rfl⟩ := List.mem_map.mp h
  exact toUpper_idem d

theorem quote_chars_fix {q : List Char} (hq : q ∈ quote_currencies) {c : Char}
    (hc : c ∈ q) : c.toUpper = c := by
  fin_cases hq <;> fin_cases hc <;> decide

theorem splitByQuote_eq_find (r : List Char) :
    ∀ qs : List (List Char),
      splitByQuote r qs =
        (qs.find? fun q => strEnds q r && !(r.take (r.length - q.length)).isEmpty).map
          fun q => r.take (r.length - q.length) ++ '/' :: q
  | [] => rfl
  | q :: rest => by
    by_cases h1 : strEnds q r
    · by_cases h2 : (r.take (r.length - q.length)).isEmpty
      · rw [splitByQuote, if_pos h1, if_pos h2, splitByQuote_eq_find r rest,
          List.find?_cons_of_neg _ (by simp [h1, h2])]
      · rw [splitByQuote, if_pos h1, if_neg h2,
          List.find?_cons_of_pos _ (by simp [h1, h2]), Option.map_some']
    · rw [splitByQuote, if_neg h1, splitByQuote_eq_find r rest,
        List.find?_cons_of_neg _ (by simp [h1])]

theorem normalize_upper_fix (raw : List Char) :
    ∀ c ∈ normalize_symbol raw, c.toUpper = c := by
  intro c hc
  unfold normalize_symbol at hc
  by_cases h1 : (toUpperStr raw).contains '/'
  · rw [if_pos h1] at hc
    exact toUpperStr_fix hc
  · rw [if_neg h1] at hc
    by_cases h2 : (toUpperStr raw).contains '-'
    · rw [if_pos h2] at hc
      obtain ⟨d, hd, rfl⟩ := List.mem_map.mp hc
      by_cases hdd : d = '-'
      · simp only [hdd, if_pos rfl]
        decide
      · simp only [if_neg hdd]
        exact toUpperStr_fix hd
    · rw [if_neg h2] at hc
      by_cases h3 : (toUpperStr raw).contains '_'
      · rw [if_pos h3] at hc
        obtain ⟨d, hd, rfl⟩ := List.mem_map.mp hc
        by_cases hdd : d = '_'
        · simp only [hdd, if_pos rfl]
          decide
        · simp only [if_neg hdd]
          exact toUpperStr_fix hd
      · rw [if_neg h3, splitByQuote_eq_find] at hc
        cases hfind : List.find?
            (fun q => strEnds q (toUpperStr raw) &&
              !((toUpperStr raw).take ((toUpperStr raw).length - q.length)).isEmpty)
            quote_currencies with
        | none =>
          rw [hfind] at hc
          simp only [Option.map_none'] at hc
          rcases List.mem_append.mp hc with h | h
          · exact toUpperStr_fix h
          · fin_cases h <;> decide
        | some q =>
          rw [hfind] at hc
          simp only [Option.map_some'] at hc
          rcases List.mem_append.mp hc with h | h
          · exact toUpperStr_fix (List.mem_of_mem_take h)
          · rcases List.mem_cons.mp h with h | h
            · subst h
              decide
            · exact quote_chars_fix (List.mem_of_find?_eq_some hfind) h

theorem normalize_has_slash (raw : List Char) :
    '/' ∈ normalize_symbol raw := by
  unfold normalize_symbol
  by_cases h1 : (toUpperStr raw).contains '/'
  · rw [if_pos h1]
    exact List.elem_iff.mp h1
  · rw [if_neg h1]
    by_cases h2 : (toUpperStr raw).contains '-'
    · rw [if_pos h2]
      refine List.mem_map.mpr ⟨'-', List.elem_iff.mp h2, ?_⟩
      simp
    · rw [if_neg h2]
      by_cases h3 : (toUpperStr raw).contains '_'
      · rw [if_pos h3]
        refine List.mem_map.mpr ⟨'_', List.elem_iff.mp h3, ?_⟩
        simp
      · rw [if_neg h3, splitByQuote_eq_find]
        cases List.find?
            (fun q => strEnds q (toUpperStr raw) &&
              !((toUpperStr raw).take ((toUpperStr raw).length - q.length)).isEmpty)
            quote_currencies with
        | none => simp
        | some q => simp

theorem normalize_of_contains_slash (s : List Char)
    (h : (toUpperStr s).contains '/' = true) :
    normalize_symbol s = toUpperStr s := by
  unfold normalize_symbol
  rw [if_pos h]

theorem lookupA_cons {β : Type} (k' : List Char) (v' : β) (t : List (List Char × β))
    (k : List Char) :
    lookupA ((k', v') :: t) k = if k' = k then some v' else lookupA t k := rfl

theorem insertA_cons {β : Type} (k' : List Char) (v' : β) (t : List (List Char × β))
    (k : List Char) (v : β) :
    insertA ((k', v') :: t) k v =
      if k' = k then (k, v) :: t else (k', v') :: insertA t k v := rfl

theorem lookupA_insertA_self {β : Type} (l : List (List Char × β)) (k : List Char) (v : β) :
    lookupA (insertA l k v) k = some v := by
  induction l with
  | nil => simp [insertA, lookupA]
  | cons p t ih =>
    obtain ⟨k', v'⟩ := p
    by_cases h : k' = k
    · simp [insertA, h, lookupA]
    · simp [insertA, h, lookupA, ih]

theorem lookupA_insertA_ne {β : Type} (l : List (List Char × β)) (k j : List Char) (v : β)
    (h : j ≠ k) : lookupA (insertA l k v) j = lookupA l j := by
  induction l with
  | nil => simp [insertA, lookupA, Ne.symm h]
  | cons p t ih =>
    obtain ⟨k', v'⟩ := p
    by_cases hk : k' = k
    · subst hk
      simp [insertA, lookupA, Ne.symm h]
    · simp [insertA, lookupA, hk, ih]

theorem insertA_insertA_same {β : Type} (l : List (List Char × β)) (k : List Char) (v w : β) :
    insertA (insertA l k v) k w = insertA l k w := by
  induction l with
  | nil => simp [insertA]
  | cons p t ih =>
    obtain ⟨k', v'⟩ := p
    by_cases h : k' = k <;> simp [insertA, h, ih]

theorem mem_insertA {β : Type} {l : List (List Char × β)} {k : List Char} {v : β}
    {p : List Char × β} (h : p ∈ insertA l k v) : p = (k, v) ∨ p ∈ l := by
  induction l with
  | nil => simpa [insertA] using h
  | cons q t ih =>
    obtain ⟨k', v'⟩ := q
    by_cases hk : k' = k
    · simp only [insertA, if_pos hk, List.mem_cons] at h
      rcases h with h | h
      · exact Or.inl h
      · exact Or.inr (List.mem_cons_of_mem _ h)
    · simp only [insertA, if_neg hk, List.mem_cons] at h
      rcases h with h | h
      · exact Or.inr (by simp [h])
      · rcases ih h with h' | h'
        · exact Or.inl h'
        · exact Or.inr (List.mem_cons_of_mem _ h')

theorem keysNodup_insertA {β : Type} {l : List (List Char × β)} (k : List Char) (v : β)
    (h : KeysNodup l) : KeysNodup (insertA l k v) := by
  induction l with
  | nil => simp [insertA, KeysNodup]
  | cons p t ih =>
    obtain ⟨k', v'⟩ := p
    simp only [KeysNodup, List.map_cons, List.nodup_cons] at h
    by_cases hk : k' = k
    · subst hk
      rw [insertA_cons, if_pos rfl]
      simp only [KeysNodup, List.map_cons, List.nodup_cons]
      exact h
    · have ht := ih h.2
      rw [insertA_cons, if_neg hk]
      simp only [KeysNodup, List.map_cons, List.nodup_cons]
      refine ⟨?_, ht⟩
      intro hmem
      simp only [List.mem_map] at hmem
      obtain ⟨q, hq, hqk⟩ := hmem
      rcases mem_insertA hq with h' | h'
      · rw [h'] at hqk
        exact hk hqk.symm
      · exact h.1 (List.mem_map.mpr ⟨q, h', hqk⟩)

theorem lookupA_mem {β : Type} {l : List (List Char × β)} {k : List Char} {v : β}
    (h : lookupA l k = some v) : (k, v) ∈ l := by
  induction l with
  | nil => simp [lookupA] at h
  | cons p t ih =>
    obtain ⟨k', v'⟩ := p
    by_cases hk : k' = k
    · subst hk
      rw [lookupA_cons, if_pos rfl] at h
      obtain rfl : v' = v := by injection h
      exact List.mem_cons_self _ _
    · rw [lookupA_cons, if_neg hk] at h
      exact List.mem_cons_of_mem _ (ih h)

theorem countKey_cons {β : Type} (q : List Char × β) (t : List (List Char × β))
    (k : List Char) :
    countKey (q :: t) k = (if q.1 = k then 1 else 0) + countKey t k := by
  by_cases h : q.1 = k <;> simp [countKey, List.filter_cons, h, Nat.add_comm]

theorem countKey_eq_zero {β : Type} {l : List (List Char × β)} {k : List Char}
    (h : k ∉ l.map Prod.fst) : countKey l k = 0 := by
  induction l with
  | nil => simp [countKey]
  | cons q t ih =>
    simp only [List.map_cons, List.mem_cons] at h
    push_neg at h
    rw [countKey_cons, if_neg (fun hq => h.1 hq.symm), ih h.2]

theorem countKey_le_one {β : Type} {l : List (List Char × β)} (k : List Char)
    (h : KeysNodup l) : countKey l k ≤ 1 := by
  induction l with
  | nil => simp [countKey]
  | cons p t ih =>
    simp only [KeysNodup, List.map_cons, List.nodup_cons] at h
    rw [countKey_cons]
    by_cases hk : p.1 = k
    · rw [if_pos hk, countKey_eq_zero (hk ▸ h.1)]
    · rw [if_neg hk]
      simpa using ih h.2

/-- Claim C3 — symbol normalization uppercases its input and then applies, in
order: accept strings containing `/`; replace `-` or `_` with `/`; split at
the first matching quote-currency suffix from the priority list with a
non-empty base; append `/USD` as fallback.  The source algorithm agrees with
the spec-worded algorithm `normalizeSpec` on every input, and the
normalization truth table holds literally. -/
theorem normalize_symbol_matches_spec :
    (∀ raw, normalize_symbol raw = normalizeSpec raw) ∧
    normalize_symbol "BTCUSDT".toList = "BTC/USDT".toList ∧
    normalize_symbol "BTC-USDT".toList = "BTC/USDT".toList ∧
    normalize_symbol "BTC_USDT".toList = "BTC/USDT".toList ∧
    normalize_symbol "BTC/USDT".toList = "BTC/USDT".toList ∧
    normalize_symbol "ETHBTC".toList = "ETH/BTC".toList ∧
    normalize_symbol "SOLUSDC".toList = "SOL/USDC".toList ∧
    normalize_symbol "btcusdt".toList = "BTC/USDT".toList := by
  refine ⟨fun raw => ?_, by decide, by decide, by decide, by decide, by decide,
    by decide, by decide⟩
  unfold normalize_symbol normalizeSpec
  simp only [splitByQuote_eq_find]
  cases List.find?
      (fun q => strEnds q (toUpperStr raw) &&
        !((toUpperStr raw).take ((toUpperStr raw).length - q.length)).isEmpty)
      quote_currencies <;> rfl

/-- Claim C10 — `normalize_symbol` is idempotent: every output contains `/`
and is fully uppercase, so a second normalization accepts it unchanged, and
registering an already-normalized symbol under any exchange returns it
as-is. -/
theorem normalize_symbol_idempotent :
    (∀ raw, normalize_symbol (normalize_symbol raw) = normalize_symbol raw) ∧
    (∀ m e raw, (register m e (normalize_symbol raw)).1 = normalize_symbol raw) := by
  have hidem : ∀ raw, normalize_symbol (normalize_symbol raw) = normalize_symbol raw := by
    intro raw
    have hfix : toUpperStr (normalize_symbol raw) = normalize_symbol raw :=
      map_fix (normalize_upper_fix raw)
    have hsl : (toUpperStr (normalize_symbol raw)).contains '/' = true := by
      rw [hfix]
      exact List.elem_iff.mpr (normalize_has_slash raw)
    rw [normalize_of_contains_slash _ hsl, hfix]
  exact ⟨hidem, fun m e raw => hidem raw⟩

/-- Claim C8 — `register(exchange, raw_symbol)` is idempotent: a repeated call
returns the same normalized value and leaves the matcher state unchanged;
`get_normalized` afterwards returns that value; on a well-formed (hash-map
shaped) state the indices keep at most one entry for the pair. -/
theorem register_idempotent (m : TickerMatcher) (e r : List Char) :
    register (register m e r).2 e r = register m e r ∧
    get_normalized (register m e r).2 e r = some (register m e r).1 ∧
    (MatcherWF m →
      MatcherWF (register m e r).2 ∧
      countKey ((lookupA (register m e r).2.to_normalized e).getD []) r ≤ 1 ∧
      countKey ((lookupA (register m e r).2.to_exchange (register m e r).1).getD []) e ≤ 1) := by
  set n := normalize_symbol r with hn
  set row1 := (lookupA m.to_normalized e).getD [] with hrow1
  set row2 := (lookupA m.to_exchange n).getD [] with hrow2
  have hreg : register m e r =
      (n, { to_normalized := insertA m.to_normalized e (insertA row1 r n),
            to_exchange := insertA m.to_exchange n (insertA row2 e r) }) := rfl
  refine ⟨?_, ?_, ?_⟩
  · rw [hreg]
    simp only [register, lookupA_insertA_self, Option.getD_some,
      insertA_insertA_same]
  · rw [hreg]
    simp [get_normalized, lookupA_insertA_self]
  · intro hwf
    obtain ⟨h1, h2, h3, h4⟩ := hwf
    have hrow1nd : KeysNodup row1 := by
      rw [hrow1]
      cases hl : lookupA m.to_normalized e with
      | none => simp [KeysNodup]
      | some row => simpa using h2 _ (lookupA_mem hl)
    have hrow2nd : KeysNodup row2 := by
      rw [hrow2]
      cases hl : lookupA m.to_exchange n with
      | none => simp [KeysNodup]
      | some row => simpa using h4 _ (lookupA_mem hl)
    have hnd1 : KeysNodup (insertA row1 r n) := keysNodup_insertA _ _ hrow1nd
    have hnd2 : KeysNodup (insertA row2 e r) := keysNodup_insertA _ _ hrow2nd
    refine ⟨⟨keysNodup_insertA _ _ h1, ?_, keysNodup_insertA _ _ h3, ?_⟩, ?_, ?_⟩
    · intro p hp
      rcases mem_insertA hp with h' | h'
      · rw [h']; exact hnd1
      · exact h2 _ h'
    · intro p hp
      rcases mem_insertA hp with h' | h'
      · rw [h']; exact hnd2
      · exact h4 _ h'
    · rw [hreg]
      simp only [lookupA_insertA_self, Option.getD_some]
      exact countKey_le_one _ hnd1
    · rw [hreg]
      simp only [lookupA_insertA_self, Option.getD_some]
      exact countKey_le_one _ hnd2

/-- Witness for C8: the theorem applied to the empty matcher and a concrete
registration, with the well-formedness hypothesis discharged concretely. -/
theorem register_idempotent_spot :
    register (register TickerMatcher.new "binance".toList "BTCUSDT".toList).2
        "binance".toList "BTCUSDT".toList =
      register TickerMatcher.new "binance".toList "BTCUSDT".toList ∧
    MatcherWF (register TickerMatcher.new "binance".toList "BTCUSDT".toList).2 := by
  have h := register_idempotent TickerMatcher.new "binance".toList "BTCUSDT".toList
  refine ⟨h.1, (h.2.2 ?_).1⟩
  constructor <;> simp [TickerMatcher.new, KeysNodup]

/-- Claim C5 (amended) — `Config::from_env` returns an error whenever
`MIN_SPREAD_PERCENT`, `MAX_SPREAD_PERCENT` or `COOLDOWN_MS` is set to a
string that does not parse as its numeric type; a malformed
`ORDERBOOK_DEPTH`, however, is silently treated exactly like an unset one
(the value falls back to 5) and never causes an error. -/
theorem from_env_parse_failures (env : Env) :
    (parseDecimal (env.min_spread_percent.getD "0.8".toList) = none →
      ∃ msg, from_env env = .error msg) ∧
    (parseDecimal (env.max_spread_percent.getD "10.0".toList) = none →
      ∃ msg, from_env env = .error msg) ∧
    (parseU64 (env.cooldown_ms.getD "1000".toList) = none →
      ∃ msg, from_env env = .error msg) ∧
    (∀ s, parseUsize s = none →
      from_env { env with orderbook_depth := some s } =
        from_env { env with orderbook_depth := none }) := by
  refine ⟨?_, ?_, ?_, ?_⟩
  · intro h
    refine ⟨"Invalid MIN_SPREAD_PERCENT".toList, ?_⟩
    simp only [from_env]
    rw [h]
  · intro h
    simp only [from_env]
    cases parseDecimal (env.min_spread_percent.getD "0.8".toList) with
    | none => exact ⟨_, rfl⟩
    | some minv =>
      rw [h]
      exact ⟨_, rfl⟩
  · intro h
    simp only [from_env]
    cases parseDecimal (env.min_spread_percent.getD "0.8".toList) with
    | none => exact ⟨_, rfl⟩
    | some minv =>
      cases parseDecimal (env.max_spread_percent.getD "10.0".toList) with
      | none => exact ⟨_, rfl⟩
      | some maxv =>
        rw [h]
        exact ⟨_, rfl⟩
  · intro s h
    simp only [from_env]
    have h5 : parseUsize ((some s).getD "5".toList) = none := h
    have h5' : parseUsize ((none : Option (List Char)).getD "5".toList) = some 5 := by
      decide
    rw [h5, h5']
    rfl

/-- Witness for C5: concrete malformed values for each checked variable make
`from_env` fail, and a malformed depth behaves like an unset one. -/
theorem from_env_parse_failures_spot :
    (∃ msg, from_env { envDepthBad with min_spread_percent := some "xx".toList } = .error msg) ∧
    (∃ msg, from_env { envDepthBad with max_spread_percent := some "1..2".toList } = .error msg) ∧
    (∃ msg, from_env { envDepthBad with cooldown_ms := some "-5".toList } = .error msg) ∧
    from_env { envDepthBad with orderbook_depth := some "abc".toList } =
      from_env { envDepthBad with orderbook_depth := none } := by
  refine ⟨(from_env_parse_failures _).1 (by decide),
    (from_env_parse_failures _).2.1 (by decide),
    (from_env_parse_failures _).2.2.1 (by decide),
    (from_env_parse_failures _).2.2.2 "abc".toList (by decide)⟩

/-- Counterexample for C5 as stated: with `ORDERBOOK_DEPTH=abc` (a string
that does not parse as `usize`) and everything else unset, `Config::from_env`
returns `Ok` — the default configuration with depth 5 — not an error. -/
theorem from_env_orderbook_depth_no_error :
    parseUsize "abc".toList = none ∧
    from_env envDepthBad = .ok cfgDepthBad := by
  constructor
  · decide
  · with_unfolding_all rfl

theorem find_arbitrage_some {cfg : Config}
    {prices : List (List Char × List (List Char × PriceUpdate))} {now : Int}
    {symbol : List Char} {o : ArbitrageOpportunity}
    (h : find_arbitrage cfg prices now symbol = some o) :
    o.symbol = symbol ∧ EmitOk cfg now o := by
  simp only [find_arbitrage] at h
  split at h
  · cases h
  · split at h
    · cases h
    · split at h
      · next sell_exchange sell_price buy_exchange buy_price heq =>
        split at h
        · cases h
        · split at h
          · cases h
          · split at h
            · cases h
            · split at h
              · cases h
              · split at h
                · cases h
                · next hne hbz hmin hmax hpf =>
                  injection h with h
                  subst h
                  refine ⟨rfl, fun hc => hne hc.symm, by linarith [not_lt.mp hmin],
                    not_lt.mp hmax, rfl, rfl, hbz, rfl, by
                      revert hpf
                      cases pairFilterOk cfg symbol <;> simp⟩
      · cases h

/-- Case analysis of one `handle_price_update` step: either nothing is
emitted and the cooldown table is untouched, or one opportunity is emitted,
its cooldown slot is stamped with `now`, and the cooldown test passed. -/
theorem handle_cases (cfg : Config) (st : ScannerState) (now : Int) (u : PriceUpdate) :
    ((handle_price_update cfg st now u).2 = none ∧
     (handle_price_update cfg st now u).1.last_alert = st.last_alert) ∨
    (∃ o, (handle_price_update cfg st now u).2 = some o ∧
      (handle_price_update cfg st now u).1.last_alert = insertA st.last_alert (oppKey o) now ∧
      u64AsI64 cfg.cooldown_ms ≤ now - (lookupA st.last_alert (oppKey o)).getD 0 ∧
      find_arbitrage cfg (handle_price_update cfg st now u).1.prices now u.symbol = some o) := by
  simp only [handle_price_update]
  cases hf : find_arbitrage cfg
      (insertA st.prices u.symbol
        (insertA ((lookupA st.prices u.symbol).getD []) u.exchange u)) now u.symbol with
  | none => exact Or.inl ⟨rfl, rfl⟩
  | some o =>
    dsimp only
    by_cases hc : now - (lookupA st.last_alert (oppKey o)).getD 0 ≥ u64AsI64 cfg.cooldown_ms
    · rw [if_pos hc]
      exact Or.inr ⟨o, rfl, rfl, hc, hf⟩
    · rw [if_neg hc]
      exact Or.inl ⟨rfl, rfl⟩

/-- The price table after a step, whatever was emitted. -/
theorem handle_prices (cfg : Config) (st : ScannerState) (now : Int) (u : PriceUpdate) :
    (handle_price_update cfg st now u).1.prices =
      insertA st.prices u.symbol
        (insertA ((lookupA st.prices u.symbol).getD []) u.exchange u) := by
  simp only [handle_price_update]
  cases find_arbitrage cfg
      (insertA st.prices u.symbol
        (insertA ((lookupA st.prices u.symbol).getD []) u.exchange u)) now u.symbol with
  | none => rfl
  | some o =>
    dsimp only
    by_cases hc : now - (lookupA st.last_alert (oppKey o)).getD 0 ≥ u64AsI64 cfg.cooldown_ms
    · rw [if_pos hc]
    · rw [if_neg hc]

/-- Every emit collected while scanning a trace satisfies `EmitOk` at its
emit time. -/
theorem scanLoop_emit_props (cfg : Config) :
    ∀ (evs : List (Int × PriceUpdate)) (st : ScannerState) (t : Int)
      (o : ArbitrageOpportunity), (t, o) ∈ (scanLoop cfg evs st).2 → EmitOk cfg t o := by
  intro evs
  induction evs with
  | nil => intro st t o h; cases h
  | cons ev rest ih =>
    intro st t o h
    obtain ⟨now, u⟩ := ev
    simp only [scanLoop, List.mem_append] at h
    rcases h with h | h
    · rcases handle_cases cfg st now u with ⟨hnone, _⟩ | ⟨o', hsome, _, _, hfa⟩
      · rw [hnone] at h
        cases h
      · rw [hsome] at h
        simp only [List.mem_singleton, Prod.mk.injEq] at h
        obtain ⟨rfl, rfl⟩ := h
        exact (find_arbitrage_some hfa).2
    · exact ih _ t o h

/-- Claim C7 (amended) — every `PriceUpdate` published by any of the ten
adapters has `bid ≠ 0` and `ask ≠ 0` (so bid and ask are positive whenever
the decoded venue values are non-negative, as real feeds are): for each
adapter, a decoded ticker whose bid or ask side is zero — including
unparseable values that default to zero — is dropped before publishing. -/
theorem adapters_nonzero_prices :
    (∀ ev now u, binanceDecode ev now = some u → NonzeroSides u) ∧
    (∀ (ev : BinanceEvent) now,
      (parseDecimal ev.bid_price).getD 0 = 0 ∨ (parseDecimal ev.ask_price).getD 0 = 0 →
      binanceDecode ev now = none) ∧
    (∀ ev now u, bybitDecode ev now = some u → NonzeroSides u) ∧
    (∀ (ev : BybitTicker) now,
      (parseDecimal ev.bid_price).getD 0 = 0 ∨ (parseDecimal ev.ask_price).getD 0 = 0 →
      bybitDecode ev now = none) ∧
    (∀ ev now u, okxDecode ev now = some u → NonzeroSides u) ∧
    (∀ (ev : OkxTicker) now,
      (parseDecimal ev.bid_price).getD 0 = 0 ∨ (parseDecimal ev.ask_price).getD 0 = 0 →
      okxDecode ev now = none) ∧
    (∀ ev now u, gateDecode ev now = some u → NonzeroSides u) ∧
    (∀ (ev : GateTicker) now,
      (parseDecimal ev.highest_bid).getD 0 = 0 ∨ (parseDecimal ev.lowest_ask).getD 0 = 0 →
      gateDecode ev now = none) ∧
    (∀ ev now u, krakenDecode ev now = some u → NonzeroSides u) ∧
    (∀ (ev : KrakenTicker) now, ev.bid = 0 ∨ ev.ask = 0 → krakenDecode ev now = none) ∧
    (∀ ev now u, kucoinDecode ev now = some u → NonzeroSides u) ∧
    (∀ (ev : KucoinTicker) now,
      (parseDecimal ev.best_bid).getD 0 = 0 ∨ (parseDecimal ev.best_ask).getD 0 = 0 →
      kucoinDecode ev now = none) ∧
    (∀ m ev now u, mexcDecode m ev now = some u → NonzeroSides u) ∧
    (∀ m (ev : MexcTicker) now,
      (ev.bid_price.bind parseDecimal).getD 0 = 0 ∨ (ev.ask_price.bind parseDecimal).getD 0 = 0 →
      mexcDecode m ev now = none) ∧
    (∀ m ev now u, htxDecode m ev now = some u → NonzeroSides u) ∧
    (∀ m (ev : HtxTicker) now, ¬(splitOnChar '.' ev.channel).length < 2 →
      ev.bid.getD 0 = 0 ∨ ev.ask.getD 0 = 0 → htxDecode m ev now = none) ∧
    (∀ m ev u, bitgetDecode m ev = some u → NonzeroSides u) ∧
    (∀ m (ev : BitgetTicker),
      (parseDecimal ev.best_bid).getD 0 = 0 ∨ (parseDecimal ev.best_ask).getD 0 = 0 →
      bitgetDecode m ev = none) ∧
    (∀ m ev now u, coinbaseDecode m ev now = some u → NonzeroSides u) ∧
    (∀ m (ev : CoinbaseTicker) now,
      (ev.best_bid.bind parseDecimal).getD 0 = 0 ∨ (ev.best_ask.bind parseDecimal).getD 0 = 0 →
      coinbaseDecode m ev now = none) := by
  refine ⟨?_, ?_, ?_, ?_, ?_, ?_, ?_, ?_, ?_, ?_, ?_, ?_, ?_, ?_, ?_, ?_, ?_, ?_, ?_, ?_⟩
  · intro ev now u h
    simp only [binanceDecode] at h
    split at h
    · cases h
    · next hz =>
      push_neg at hz
      injection h with h
      subst h
      exact hz
  · intro ev now hz
    simp only [binanceDecode]
    rw [if_pos hz]
  · intro ev now u h
    simp only [bybitDecode] at h
    split at h
    · cases h
    · next hz =>
      push_neg at hz
      injection h with h
      subst h
      exact hz
  · intro ev now hz
    simp only [bybitDecode]
    rw [if_pos hz]
  · intro ev now u h
    simp only [okxDecode] at h
    split at h
    · cases h
    · next hz =>
      push_neg at hz
      injection h with h
      subst h
      exact hz
  · intro ev now hz
    simp only [okxDecode]
    rw [if_pos hz]
  · intro ev now u h
    simp only [gateDecode] at h
    split at h
    · cases h
    · next hz =>
      push_neg at hz
      injection h with h
      subst h
      exact hz
  · intro ev now hz
    simp only [gateDecode]
    rw [if_pos hz]
  · intro ev now u h
    simp only [krakenDecode] at h
    split at h
    · cases h
    · next hz =>
      push_neg at hz
      injection h with h
      subst h
      exact hz
  · intro ev now hz
    simp only [krakenDecode]
    rw [if_pos hz]
  · intro ev now u h
    simp only [kucoinDecode] at h
    split at h
    · cases h
    · next hz =>
      push_neg at hz
      injection h with h
      subst h
      exact hz
  · intro ev now hz
    simp only [kucoinDecode]
    rw [if_pos hz]
  · intro m ev now u h
    simp only [mexcDecode] at h
    split at h
    · cases h
    · next hz =>
      push_neg at hz
      split at h
      · cases h
      · injection h with h
        subst h
        exact hz
  · intro m ev now hz
    simp only [mexcDecode]
    rw [if_pos hz]
  · intro m ev now u h
    simp only [htxDecode] at h
    split at h
    · cases h
    · split at h
      · cases h
      · next hz =>
        push_neg at hz
        split at h
        · cases h
        · injection h with h
          subst h
          exact hz
  · intro m ev now hlen hz
    simp only [htxDecode]
    rw [if_neg hlen, if_pos hz]
  · intro m ev u h
    simp only [bitgetDecode] at h
    split at h
    · cases h
    · next hz =>
      push_neg at hz
      split at h
      · cases h
      · injection h with h
        subst h
        exact hz
  · intro m ev hz
    simp only [bitgetDecode]
    rw [if_pos hz]
  · intro m ev now u h
    simp only [coinbaseDecode] at h
    split at h
    · cases h
    · next hz =>
      push_neg at hz
      split at h
      · cases h
      · injection h with h
        subst h
        exact hz
  · intro m ev now hz
    simp only [coinbaseDecode]
    rw [if_pos hz]

/-- Witness for C7: a concrete Binance ticker is published with both sides
non-zero, and a concrete zero-bid Kraken ticker is dropped. -/
theorem adapters_nonzero_prices_spot :
    NonzeroSides updNegBid ∧ krakenDecode evKrakenZero 0 = none := by
  constructor
  · exact adapters_nonzero_prices.1 evNegBid 0 updNegBid (by with_unfolding_all rfl)
  · exact adapters_nonzero_prices.2.2.2.2.2.2.2.2.2.1 evKrakenZero 0 (Or.inl rfl)

/-- Counterexample for C7 as stated: the adapters only drop *zero* sides, so
a decoded ticker with a negative bid (`"-1"`, which parses successfully) is
published with `bid < 0`, falsifying `bid > 0` for published updates. -/
theorem binance_negative_bid_published :
    binanceDecode evNegBid 0 = some updNegBid ∧ updNegBid.bid < 0 := by
  constructor
  · with_unfolding_all rfl
  · norm_num [updNegBid]

/-- Claim C1 (amended) — every opportunity the scanner hands to the notifier
satisfies, under any configuration and processed update sequence:
`buy_exchange ≠ sell_exchange`, `min_spread_percent ≤ spread_percent ≤
max_spread_percent` (both inclusive), `spread_usd = sell_price − buy_price`,
and `spread_percent = (sell_price − buy_price) / buy_price × 100` exactly (in
the exact-decimal model); `sell_price > buy_price` holds whenever
`min_spread_percent > 0` and `buy_price > 0` — with `min_spread_percent ≤ 0`
an opportunity with `sell_price = buy_price` can be emitted. -/
theorem emitted_opportunity_invariants (cfg : Config) (evs : List (Int × PriceUpdate))
    (t : Int) (o : ArbitrageOpportunity) (h : (t, o) ∈ (scanTrace cfg evs).2) :
    o.buy_exchange ≠ o.sell_exchange ∧
    cfg.min_spread_percent ≤ o.spread_percent ∧
    o.spread_percent ≤ cfg.max_spread_percent ∧
    o.spread_usd = o.sell_price - o.buy_price ∧
    o.spread_percent = (o.sell_price - o.buy_price) / o.buy_price * 100 ∧
    (0 < cfg.min_spread_percent → 0 < o.buy_price → o.buy_price < o.sell_price) := by
  obtain ⟨hne, hmin, hmax, husd, hpct, hbz, _, _⟩ := scanLoop_emit_props cfg evs _ t o h
  refine ⟨hne, hmin, hmax, husd, hpct, ?_⟩
  intro hminpos hbp
  have hp : 0 < o.spread_percent := lt_of_lt_of_le hminpos hmin
  rw [hpct] at hp
  have hq : 0 < (o.sell_price - o.buy_price) / o.buy_price := by linarith
  rcases div_pos_iff.mp hq with ⟨hnum, _⟩ | ⟨_, hden⟩
  · linarith
  · linarith

/-- Witness for C1: the invariants instantiated on the concrete seed trace
and its emitted opportunity. -/
theorem emitted_opportunity_invariants_spot :
    opp4.buy_exchange ≠ opp4.sell_exchange ∧
    opp4.spread_usd = opp4.sell_price - opp4.buy_price ∧
    opp4.buy_price < opp4.sell_price := by
  have hmem : (2000, opp4) ∈ (scanTrace cfg4 evs4).2 := by
    have h : (scanTrace cfg4 evs4).2 = [(2000, opp4)] := by with_unfolding_all rfl
    rw [h]
    exact List.mem_singleton.mpr rfl
  obtain ⟨h1, _, _, h4, _, h6⟩ :=
    emitted_opportunity_invariants cfg4 evs4 2000 opp4 hmem
  exact ⟨h1, h4, h6 (by norm_num [cfg4]) (by norm_num [opp4])⟩

/-- Counterexample for C1 as stated: with `min_spread_percent = 0` (an
allowed configuration) the scanner emits an opportunity whose sell price
equals its buy price, so `sell_price > buy_price` does not hold under any
configuration. -/
theorem scanner_emits_equal_prices :
    (scanTrace cfgMin0 evsMin0).2 = [(5000, oppMin0)] ∧
    ¬oppMin0.buy_price < oppMin0.sell_price := by
  constructor
  · with_unfolding_all rfl
  · norm_num [oppMin0]

/-- Claim C4 — with `min_spread_percent = 0.3` and an otherwise permissive
configuration, the two-venue seed trace emits exactly one opportunity — buy
binance at 60010, sell okx at 60250, spread ≈ 0.3995 % — and re-feeding both
prices within one second (less than `cooldown_ms`) adds no further emits. -/
theorem seed_scenario_cross_venue :
    (scanTrace cfg4 evs4).2 = [(2000, opp4)] ∧
    opp4.buy_exchange = "binance".toList ∧ opp4.buy_price = 60010 ∧
    opp4.sell_exchange = "okx".toList ∧ opp4.sell_price = 60250 ∧
    |opp4.spread_percent - 3995/10000| < 1/1000 := by
  refine ⟨by with_unfolding_all rfl, rfl, rfl, rfl, rfl, ?_⟩
  show |(2400 : ℚ)/6001 - 3995/10000| < 1/1000
  rw [abs_sub_lt_iff]
  constructor <;> norm_num

/-- Claim C6 — with a non-empty `filter_pairs`, an opportunity is emitted
only if the symbol's base asset (characters before `/`) contains, or is
contained in, some filter entry; the matching is substring in both
directions, so the entry `BTC` admits both `BTC/USDT` and `SBTC/USDT`; an
empty filter admits every symbol. -/
theorem pair_filter_substring :
    (∀ cfg evs t o, (t, o) ∈ (scanTrace cfg evs).2 → cfg.filter_pairs ≠ [] →
      ∃ p ∈ cfg.filter_pairs,
        strContains (o.symbol.takeWhile fun c => c ≠ '/') p = true ∨
        strContains p (o.symbol.takeWhile fun c => c ≠ '/') = true) ∧
    (∀ cfg s, cfg.filter_pairs = [] → pairFilterOk cfg s = true) ∧
    pairFilterOk cfgBTC "BTC/USDT".toList = true ∧
    pairFilterOk cfgBTC "SBTC/USDT".toList = true := by
  refine ⟨?_, ?_, by decide, by decide⟩
  · intro cfg evs t o h hne
    obtain ⟨_, _, _, _, _, _, _, hpf⟩ := scanLoop_emit_props cfg evs _ t o h
    rw [pairFilterOk, if_neg (by simpa [List.isEmpty_iff] using hne)] at hpf
    obtain ⟨p, hp, hmatch⟩ := List.any_eq_true.mp hpf
    exact ⟨p, hp, Bool.or_eq_true _ _ |>.mp hmatch⟩
  · intro cfg s h
    rw [pairFilterOk, if_pos (by simp [List.isEmpty_iff, h])]

/-- Witness for C6: the filter entry `BTC` admits the concrete emitted
`BTC/USDT` opportunity. -/
theorem pair_filter_substring_spot :
    ∃ p ∈ cfgBTC.filter_pairs,
      strContains (oppMin0.symbol.takeWhile fun c => c ≠ '/') p = true ∨
      strContains p (oppMin0.symbol.takeWhile fun c => c ≠ '/') = true := by
  have hmem : (5000, oppMin0) ∈ (scanTrace cfgBTC evsMin0).2 := by
    have h : (scanTrace cfgBTC evsMin0).2 = [(5000, oppMin0)] := by
      with_unfolding_all rfl
    rw [h]
    exact List.mem_singleton.mpr rfl
  exact pair_filter_substring.1 cfgBTC evsMin0 5000 oppMin0 hmem (by decide)

theorem cell_step_self (cfg : Config) (st : ScannerState) (now : Int) (u : PriceUpdate) :
    lookupCell (handle_price_update cfg st now u).1.prices u.symbol u.exchange = some u := by
  rw [handle_prices]
  simp only [lookupCell, lookupA_insertA_self, Option.some_bind]

theorem cell_step_frame (cfg : Config) (st : ScannerState) (now : Int) (u : PriceUpdate)
    (s e : List Char) (h : ¬(s = u.symbol ∧ e = u.exchange)) :
    lookupCell (handle_price_update cfg st now u).1.prices s e =
      lookupCell st.prices s e := by
  rw [handle_prices]
  by_cases hs : s = u.symbol
  · subst hs
    have he : e ≠ u.exchange := fun hc => h ⟨rfl, hc⟩
    simp only [lookupCell, lookupA_insertA_self, Option.some_bind]
    rw [lookupA_insertA_ne _ _ _ _ he]
    cases hrow : lookupA st.prices u.symbol with
    | none => simp [hrow, lookupA]
    | some row => simp [hrow]
  · simp only [lookupCell]
    rw [lookupA_insertA_ne _ _ _ _ hs]

theorem scanLoop_cell (cfg : Config) :
    ∀ (evs : List (Int × PriceUpdate)) (st : ScannerState) (s e : List Char),
      lookupCell (scanLoop cfg evs st).1.prices s e =
        ((evs.map Prod.snd).reverse.find? fun v => v.symbol = s ∧ v.exchange = e).elim
          (lookupCell st.prices s e) some := by
  intro evs
  induction evs with
  | nil => intro st s e; rfl
  | cons ev rest ih =>
    intro st s e
    obtain ⟨now, u⟩ := ev
    show lookupCell (scanLoop cfg rest (handle_price_update cfg st now u).1).1.prices s e = _
    rw [ih, List.map_cons, List.reverse_cons, List.find?_append]
    cases hf : (rest.map Prod.snd).reverse.find? fun v => v.symbol = s ∧ v.exchange = e with
    | some v => rfl
    | none =>
      by_cases hm : u.symbol = s ∧ u.exchange = e
      · obtain ⟨hs, he⟩ := hm
        subst hs
        subst he
        have h1 := cell_step_self cfg st now u
        simp only [Option.none_or, Option.elim]
        rw [List.find?_cons_of_pos _ (by simp)]
        exact h1
      · have h2 := cell_step_frame cfg st now u s e (fun hc => hm ⟨hc.1.symm, hc.2.symm⟩)
        simp only [Option.none_or, Option.elim]
        rw [List.find?_cons_of_neg _ (by simpa using fun hc1 hc2 => hm ⟨hc1, hc2⟩)]
        exact h2

/-- Claim C9 — processing an update writes it at exactly the cell
`(update.symbol, update.exchange)` of the price table, overwriting any prior
entry, and leaves every other cell unchanged; consequently, over any trace,
each cell holds the most recent update processed for that (symbol, exchange)
pair. -/
theorem price_table_frame :
    (∀ cfg st now u,
      lookupCell (handle_price_update cfg st now u).1.prices u.symbol u.exchange = some u) ∧
    (∀ cfg st now u s e, ¬(s = u.symbol ∧ e = u.exchange) →
      lookupCell (handle_price_update cfg st now u).1.prices s e =
        lookupCell st.prices s e) ∧
    (∀ cfg evs s e,
      lookupCell (scanTrace cfg evs).1.prices s e =
        (evs.map Prod.snd).reverse.find? fun v => v.symbol = s ∧ v.exchange = e) := by
  refine ⟨cell_step_self, cell_step_frame, ?_⟩
  intro cfg evs s e
  rw [scanTrace, scanLoop_cell]
  cases (evs.map Prod.snd).reverse.find? fun v => v.symbol = s ∧ v.exchange = e with
  | none => rfl
  | some v => rfl

/-- Witness for C9: one concrete step writes its own cell and leaves a
different cell untouched. -/
theorem price_table_frame_spot :
    lookupCell (handle_price_update cfg4 ScannerState.init 0
        (mkUpd "binance" 60000 60010)).1.prices
      (mkUpd "binance" 60000 60010).symbol (mkUpd "binance" 60000 60010).exchange =
      some (mkUpd "binance" 60000 60010) ∧
    lookupCell (handle_price_update cfg4 ScannerState.init 0
        (mkUpd "binance" 60000 60010)).1.prices "ETH/USDT".toList "okx".toList =
      lookupCell ScannerState.init.prices "ETH/USDT".toList "okx".toList := by
  exact ⟨price_table_frame.1 cfg4 ScannerState.init 0 (mkUpd "binance" 60000 60010),
    price_table_frame.2.1 cfg4 ScannerState.init 0 (mkUpd "binance" 60000 60010)
      "ETH/USDT".toList "okx".toList (by decide)⟩

theorem filter_sublist_mono {α : Type} {p q : α → Bool} (h : ∀ x, p x = true → q x = true) :
    ∀ l : List α, List.Sublist (l.filter p) (l.filter q)
  | [] => List.Sublist.refl _
  | x :: t => by
    rw [List.filter_cons, List.filter_cons]
    by_cases hp : p x = true
    · rw [if_pos hp, if_pos (h x hp)]
      exact List.Sublist.cons₂ x (filter_sublist_mono h t)
    · rw [if_neg hp]
      by_cases hq : q x = true
      · rw [if_pos hq]
        exact List.Sublist.cons x (filter_sublist_mono h t)
      · rw [if_neg hq]
        exact filter_sublist_mono h t

theorem u64AsI64_of_lt {n : Nat} (h : n < 2 ^ 63) : u64AsI64 n = (n : Int) := by
  have hm : n % 2 ^ 64 = n := Nat.mod_eq_of_lt (by omega)
  rw [u64AsI64, hm, if_pos h]

/-- The cooldown table always chains each key's next emit at least the cast
cooldown after the stored last-emit time. -/
theorem scanLoop_chain (cfg : Config) :
    ∀ (evs : List (Int × PriceUpdate)) (st : ScannerState) (k : List Char),
      List.Chain' (fun x y => u64AsI64 cfg.cooldown_ms ≤ y - x)
        ((lookupA st.last_alert k).getD 0 ::
          (keyEmits k (scanLoop cfg evs st).2).map Prod.fst) := by
  intro evs
  induction evs with
  | nil => intro st k; exact List.chain'_singleton _
  | cons ev rest ih =>
    intro st k
    obtain ⟨now, u⟩ := ev
    simp only [scanLoop, keyEmits, List.filter_append, List.map_append]
    rcases handle_cases cfg st now u with ⟨hnone, hla⟩ | ⟨o, hsome, hla, hcd, _⟩
    · rw [hnone]
      have := ih (handle_price_update cfg st now u).1 k
      rw [hla] at this
      simpa [keyEmits] using this
    · rw [hsome]
      by_cases hk : oppKey o = k
      · subst hk
        rw [show (List.filter (fun p => decide (oppKey p.2 = oppKey o)) [(now, o)]) =
            [(now, o)] by simp]
        have := ih (handle_price_update cfg st now u).1 (oppKey o)
        rw [hla, lookupA_insertA_self] at this
        simp only [Option.getD_some] at this
        simp only [List.map_cons, List.map_nil, List.singleton_append]
        rw [List.chain'_cons]
        exact ⟨hcd, by simpa [keyEmits] using this⟩
      · rw [show (List.filter (fun p => decide (oppKey p.2 = k)) [(now, o)]) = [] by
          simp [hk]]
        have := ih (handle_price_update cfg st now u).1 k
        rw [hla, lookupA_insertA_ne _ _ _ _ (fun hc => hk hc.symm)] at this
        simpa [keyEmits] using this

/-- Claim C2 — for any fixed opportunity triple
`(symbol, buy_exchange, sell_exchange)`: provided `cooldown_ms < 2^63` — so
that the `cooldown_ms as i64` cast in the cooldown check preserves the value
— consecutive emits are separated by at least `cooldown_ms`; an opportunity
found less than the cast cooldown after the last emit on its key is dropped
without notifying; and the last-emit table is updated exactly when an emit
happens.  (With `cooldown_ms ≥ 2^63` the cast wraps negative and the check
always passes.) -/
theorem cooldown_spacing :
    (∀ cfg evs s b se, cfg.cooldown_ms < 2 ^ 63 →
      List.Chain' (fun x y => (cfg.cooldown_ms : Int) ≤ y - x)
        ((tripleEmits s b se (scanTrace cfg evs).2).map Prod.fst)) ∧
    (∀ cfg st now u, (handle_price_update cfg st now u).2 = none →
      (handle_price_update cfg st now u).1.last_alert = st.last_alert) ∧
    (∀ cfg st now u o, (handle_price_update cfg st now u).2 = some o →
      (handle_price_update cfg st now u).1.last_alert =
        insertA st.last_alert (oppKey o) now ∧
      u64AsI64 cfg.cooldown_ms ≤ now - (lookupA st.last_alert (oppKey o)).getD 0) ∧
    (∀ cfg st now u o,
      find_arbitrage cfg (handle_price_update cfg st now u).1.prices now u.symbol =
        some o →
      now - (lookupA st.last_alert (oppKey o)).getD 0 < u64AsI64 cfg.cooldown_ms →
      (handle_price_update cfg st now u).2 = none) := by
  refine ⟨?_, ?_, ?_, ?_⟩
  · intro cfg evs s b se hsmall
    haveI : IsTrans Int (fun x y => (cfg.cooldown_ms : Int) ≤ y - x) :=
      ⟨fun a b c hab hbc => by
        have h0 : (0 : Int) ≤ (cfg.cooldown_ms : Int) := Int.ofNat_nonneg _
        omega⟩
    have hchain := scanLoop_chain cfg evs ScannerState.init
      (s ++ '-' :: (b ++ '-' :: se))
    rw [u64AsI64_of_lt hsmall] at hchain
    have htail := hchain.tail
    have hsub : List.Sublist (tripleEmits s b se (scanTrace cfg evs).2)
        (keyEmits (s ++ '-' :: (b ++ '-' :: se)) (scanTrace cfg evs).2) := by
      refine filter_sublist_mono ?_ _
      intro p hp
      simp only [decide_eq_true_eq] at hp ⊢
      obtain ⟨h1, h2, h3⟩ := hp
      rw [oppKey, h1, h2, h3]
    exact List.Chain'.sublist htail (List.Sublist.map Prod.fst hsub)
  · intro cfg st now u h
    rcases handle_cases cfg st now u with ⟨_, hla⟩ | ⟨o, hsome, _, _, _⟩
    · exact hla
    · rw [h] at hsome
      cases hsome
  · intro cfg st now u o h
    rcases handle_cases cfg st now u with ⟨hnone, _⟩ | ⟨o', hsome, hla, hcd, _⟩
    · rw [h] at hnone
      cases hnone
    · rw [h] at hsome
      injection hsome with ho
      subst ho
      exact ⟨hla, hcd⟩
  · intro cfg st now u o h hlt
    rw [handle_prices] at h
    simp only [handle_price_update]
    rw [h]
    dsimp only
    rw [if_neg (by omega)]

/-- Witness for C2: a single-update step emits nothing and leaves the
cooldown table untouched; the spacing chain holds on the concrete seed
trace. -/
theorem cooldown_spacing_spot :
    (handle_price_update cfg4 ScannerState.init 0 (mkUpd "binance" 60000 60010)).1.last_alert =
      ScannerState.init.last_alert ∧
    List.Chain' (fun x y => (cfg4.cooldown_ms : Int) ≤ y - x)
      ((tripleEmits "BTC/USDT".toList "binance".toList "okx".toList
        (scanTrace cfg4 evs4).2).map Prod.fst) := by
  refine ⟨cooldown_spacing.2.1 cfg4 ScannerState.init 0 (mkUpd "binance" 60000 60010) ?_,
    cooldown_spacing.1 cfg4 evs4 "BTC/USDT".toList "binance".toList "okx".toList
      (by norm_num [cfg4])⟩
  with_unfolding_all rfl

/-- Counterexample for C2 as stated: `COOLDOWN_MS = 2^63` is accepted by the
configuration parser, but its `u64 as i64` cast wraps negative, so the
cooldown check always passes: the seed trace then emits on the same key at
2000, 2500 and 2900 ms — consecutive emits only 500 ms apart, far less than
`cooldown_ms`. -/
theorem cooldown_disabled_by_wrap :
    (scanTrace cfgWrap evs4).2 =
      [(2000, oppAt 2000), (2500, oppAt 2500), (2900, oppAt 2900)] ∧
    (2500 : Int) - 2000 < (cfgWrap.cooldown_ms : Int) ∧
    parseU64 "9223372036854775808".toList = some cfgWrap.cooldown_ms := by
  refine ⟨by with_unfolding_all rfl, by norm_num [cfgWrap, cfg4], ?_⟩
  with_unfolding_all rfl

end Arb
